import Mathlib

/- Shallow embedding of the shouyou-plus selection/scoring engine
   (src/js/radicals.js: RadicalManager together with the static catalog
   RADICAL_MAP / RADICAL_LIST) and of its storage collaborator
   (StorageManager). JS numbers are modelled as rationals; the two
   sources of randomness of the engine (the per-item jitter added by
   calculatePriority and the Math.random() value of the weighted
   selection inside getNextRadical) are explicit parameters, so every
   statement quantifies over all random choices. -/

namespace ShouyouPlus

/-- A catalog item (one entry of RADICAL_LIST): the component glyph, the
target key and the unique id derived as key ++ "_" ++ glyph. -/
structure CatalogItem where
  char : String
  key : String
  id : String
deriving DecidableEq

/-- RADICAL_MAP (radicals.js lines 7 to 34): key to component glyphs. -/
def RADICAL_MAP : List (String × List String) :=
  [("Q", ["火", "龶"]),
   ("W", ["王", "亠", "攵"]),
   ("E", ["禾", "阝"]),
   ("R", ["亻", "彳"]),
   ("T", ["土", "田"]),
   ("Y", ["月", "又", "雨"]),
   ("U", ["氵"]),
   ("I", ["纟", "厶"]),
   ("O", ["虫", "刂"]),
   ("P", ["撇"]),
   ("A", ["讠"]),
   ("S", ["竖", "饣", "石", "尸"]),
   ("D", ["点", "目"]),
   ("F", ["扌", "十"]),
   ("G", ["竹", "辶", "山", "弓"]),
   ("H", ["横"]),
   ("J", ["钅", "几", "巾"]),
   ("K", ["口"]),
   ("L", ["日", "⺈", "力", "大"]),
   ("Z", ["⻊", "子", "西", "疒"]),
   ("X", ["忄", "小", "彐", "广"]),
   ("C", ["艹", "车", "乂", "寸"]),
   ("V", ["折", "舟"]),
   ("B", ["宀", "贝", "勹", "八", "犭"]),
   ("N", ["女", "鸟"]),
   ("M", ["木", "门"])]

/-- RADICAL_LIST (radicals.js lines 37 to 47): the flattened catalog,
in table declaration order, with id = key ++ "_" ++ glyph. -/
def RADICAL_LIST : List CatalogItem :=
  RADICAL_MAP.flatMap fun p => p.2.map fun r => ⟨r, p.1, p.1 ++ "_" ++ r⟩

/-- TOTAL_RADICALS (radicals.js line 50). -/
def TOTAL_RADICALS : ℕ := RADICAL_LIST.length

/-- The per-item learning record stored in radicalData (radicals.js
lines 62 to 68): weight, mastery streak, draw-counter value at the last
presentation, lifetime wrong/correct totals. -/
structure ItemState where
  weight : ℚ
  mastery : ℕ
  lastPracticed : ℕ
  wrongCount : ℕ
  correctCount : ℕ
deriving DecidableEq

/-- The default record given to every catalog item at construction and
on reset: weight 1, everything else 0. -/
def initItemState : ItemState :=
  { weight := 1, mastery := 0, lastPracticed := 0, wrongCount := 0, correctCount := 0 }

/-- The engine state: the fields of a RadicalManager instance
(radicals.js lines 56 to 79). radicalData is the JS object mapping item
id to its record; practicedRadicals is the JS Set of seen ids, kept as
a duplicate-free list; the catalog is fixed at construction (the JS
module global RADICAL_LIST) and never mutated. -/
structure RadicalManager where
  catalog : List CatalogItem
  radicalData : String → Option ItemState
  lastRadical : Option CatalogItem
  practicedRadicals : List String
  practiceCounter : ℕ

namespace RadicalManager

/-- Point update of the id-to-record map (JS property assignment). -/
def setItem (f : String → Option ItemState) (id : String) (v : ItemState) :
    String → Option ItemState :=
  fun x => if x = id then some v else f x

/-- The constructor loop (radicals.js lines 61 to 69): every catalog id
is bound to a fresh default record; other ids are absent. -/
def initData (catalog : List CatalogItem) : String → Option ItemState :=
  catalog.foldl (fun f r => setItem f r.id initItemState) (fun _ => none)

/-- The RadicalManager constructor (radicals.js lines 57 to 79). -/
def init (catalog : List CatalogItem) : RadicalManager :=
  { catalog := catalog
    radicalData := initData catalog
    lastRadical := none
    practicedRadicals := []
    practiceCounter := 0 }

/-- calculatePriority (radicals.js lines 85 to 118). The argument
jitter stands for the value Math.random() * 5 added at line 115; it is
supplied by the caller so the theorems can quantify over it. Returns
none when the id has no record (the JS code would throw there; it is
only ever called on catalog ids, which always have one). -/
def calculatePriority (m : RadicalManager) (radicalId : String) (jitter : ℚ) : Option ℚ :=
  (m.radicalData radicalId).map fun data =>
    let isPracticed := radicalId ∈ m.practicedRadicals
    let p1 : ℚ := if isPracticed then 0 else 100
    let p2 : ℚ := p1 + (5 - (data.mastery : ℚ)) * 10
    let p3 : ℚ := p2 + data.weight * 5
    let p4 : ℚ :=
      if 0 < data.lastPracticed then
        let timeSinceLastPractice : ℤ :=
          (m.practiceCounter : ℤ) - (data.lastPracticed : ℤ)
        let requiredInterval : ℤ := 2 ^ data.mastery
        if requiredInterval ≤ timeSinceLastPractice then
          p3 + ((min 20 (timeSinceLastPractice - requiredInterval) : ℤ) : ℚ)
        else p3
      else p3
    p4 + jitter

/-- The scored list built by getNextRadical (radicals.js lines 128 to
131): one (item, priority) pair per catalog item, js giving the jitter
drawn for each item on this draw. -/
def priorityListOf (m : RadicalManager) (js : String → ℚ) : List (CatalogItem × ℚ) :=
  m.catalog.map fun item => (item, (calculatePriority m item.id (js item.id)).getD 0)

/-- The candidate pool of getNextRadical (radicals.js lines 134 to
137): sort descending by priority (JS sort with comparator
(a, b) => b.priority - a.priority, stable) and keep the first five. -/
def topCandidatesOf (m : RadicalManager) (js : String → ℚ) : List (CatalogItem × ℚ) :=
  ((priorityListOf m js).mergeSort fun a b => decide (b.2 ≤ a.2)).take 5

/-- The weighted-selection loop (radicals.js lines 144 to 150): subtract
each candidate priority from the running random value and stop at the
first candidate that drives it to zero or below; if the loop finishes
without that happening the initial choice (the first candidate) stays. -/
def pickWeighted : ℚ → List (CatalogItem × ℚ) → CatalogItem → CatalogItem
  | _, [], selected => selected
  | random, c :: rest, selected =>
    if random - c.2 ≤ 0 then c.1 else pickWeighted (random - c.2) rest selected

/-- The body of getNextRadical after the counter increment (radicals.js
lines 127 to 158), acting on the already-incremented state m1. r01 is
the Math.random() value of line 141, so the selection cursor starts at
r01 * totalPriority. On an empty catalog the JS code would throw after
the increment; that case returns no item and the incremented state. -/
def drawFrom (m1 : RadicalManager) (js : String → ℚ) (r01 : ℚ) :
    Option CatalogItem × RadicalManager :=
  match topCandidatesOf m1 js with
  | [] => (none, m1)
  | c0 :: rest =>
    let totalPriority : ℚ := ((c0 :: rest).map fun c => c.2).sum
    let selected := pickWeighted (r01 * totalPriority) (c0 :: rest) c0.1
    let selected2 :=
      if some selected.id = m1.lastRadical.map CatalogItem.id ∧ 1 < (c0 :: rest).length then
        (rest.headD c0).1
      else selected
    (some selected2, { m1 with lastRadical := some selected2 })

/-- getNextRadical (radicals.js lines 124 to 159): increment the draw
counter, then score, sort, select. -/
def getNextRadical (m : RadicalManager) (js : String → ℚ) (r01 : ℚ) :
    Option CatalogItem × RadicalManager :=
  drawFrom { m with practiceCounter := m.practiceCounter + 1 } js r01

/-- handleCorrect (radicals.js lines 165 to 177): on a known id, raise
mastery (capped at 5), shrink the weight (floored at 0.3), stamp the
draw counter, count the correct answer; unknown ids are ignored. -/
def handleCorrect (m : RadicalManager) (radicalId : String) : RadicalManager :=
  match m.radicalData radicalId with
  | none => m
  | some data =>
    let upd : ItemState :=
      { data with
        mastery := min 5 (data.mastery + 1)
        weight := max (3/10) (data.weight * (7/10))
        lastPracticed := m.practiceCounter
        correctCount := data.correctCount + 1 }
    { m with radicalData := setItem m.radicalData radicalId upd }

/-- handleWrong (radicals.js lines 183 to 195): on a known id, reset
mastery to 0, grow the weight by 1.5 (capped at 5), stamp the draw
counter, count the wrong answer; unknown ids are ignored. -/
def handleWrong (m : RadicalManager) (radicalId : String) : RadicalManager :=
  match m.radicalData radicalId with
  | none => m
  | some data =>
    let upd : ItemState :=
      { data with
        mastery := 0
        weight := min 5 (data.weight + 3/2)
        lastPracticed := m.practiceCounter
        wrongCount := data.wrongCount + 1 }
    { m with radicalData := setItem m.radicalData radicalId upd }

/-- markPracticed (radicals.js lines 217 to 219): add the id to the
seen set (JS Set.add; list order is immaterial, only membership and
size are observed). -/
def markPracticed (m : RadicalManager) (radicalId : String) : RadicalManager :=
  { m with practicedRadicals := m.practicedRadicals.insert radicalId }

/-- getPracticedCount (radicals.js lines 231 to 233): size of the seen set. -/
def getPracticedCount (m : RadicalManager) : ℕ := m.practicedRadicals.length

/-- The correct-answer event as the application performs it
(practice.js lines 357 to 398): mark the answered item practiced, then
decreaseWeight, which is an alias of handleCorrect. The spec names this
combined operation recordCorrect. -/
def recordCorrect (m : RadicalManager) (radicalId : String) : RadicalManager :=
  (m.markPracticed radicalId).handleCorrect radicalId

/-- resetWeights (radicals.js lines 280 to 293): every record back to
the default, seen set cleared, previous-item memory cleared, counter
zeroed. -/
def resetWeights (m : RadicalManager) : RadicalManager :=
  { m with radicalData := initData m.catalog
           practicedRadicals := []
           lastRadical := none
           practiceCounter := 0 }

/-- A stored per-item record as found in a saved weights map in the new
format: a JS object whose present fields overwrite the current record
through the spread { ...old, ...data } (radicals.js line 307). -/
structure PartialItemState where
  weight : Option ℚ
  mastery : Option ℕ
  lastPracticed : Option ℕ
  wrongCount : Option ℕ
  correctCount : Option ℕ
deriving DecidableEq

/-- The spread { ...old, ...data }: fields present in data win. -/
def spreadOver (old : ItemState) (p : PartialItemState) : ItemState :=
  { weight := p.weight.getD old.weight
    mastery := p.mastery.getD old.mastery
    lastPracticed := p.lastPracticed.getD old.lastPracticed
    wrongCount := p.wrongCount.getD old.wrongCount
    correctCount := p.correctCount.getD old.correctCount }

/-- The two shapes a saved weights map can have. restoreWeights detects
the shape by typeof on the value under the first key (radicals.js lines
302 to 303): object values mean the new full format, bare numbers the
legacy flat map. The two homogeneous shapes are the two constructors. -/
inductive SavedWeights where
  | legacy (entries : List (String × ℚ))
  | full (entries : List (String × PartialItemState))

/-- restoreWeights (radicals.js lines 299 to 319): in the new format
each stored record is spread over the current one; in the legacy format
only the weight field is replaced by the stored number. Either way ids
absent from radicalData are skipped. -/
def restoreWeights (m : RadicalManager) (savedWeights : SavedWeights) : RadicalManager :=
  match savedWeights with
  | .full entries =>
    { m with radicalData := entries.foldl (fun f e =>
        match f e.1 with
        | some old => setItem f e.1 (spreadOver old e.2)
        | none => f) m.radicalData }
  | .legacy entries =>
    { m with radicalData := entries.foldl (fun f e =>
        match f e.1 with
        | some old => setItem f e.1 { old with weight := e.2 }
        | none => f) m.radicalData }

/-- restorePracticeCounter (radicals.js lines 325 to 329). -/
def restorePracticeCounter (m : RadicalManager) (counter : ℕ) : RadicalManager :=
  { m with practiceCounter := counter }

/-- restorePracticed (radicals.js lines 335 to 339): the seen set is
rebuilt from the stored id array (new Set deduplicates). -/
def restorePracticed (m : RadicalManager) (practicedIds : List String) : RadicalManager :=
  { m with practicedRadicals := practicedIds.dedup }

/-- The public operations of the engine, for reachability statements:
a draw with its random choices, the two outcome recorders, the reset,
and the three restore entry points. -/
inductive Op where
  | draw (js : String → ℚ) (r01 : ℚ)
  | correct (id : String)
  | wrong (id : String)
  | reset
  | restoreW (sw : SavedWeights)
  | restoreP (ids : List String)
  | restoreC (c : ℕ)

/-- Apply one public operation to the engine state. -/
def applyOp (m : RadicalManager) : Op → RadicalManager
  | .draw js r01 => (m.getNextRadical js r01).2
  | .correct id => m.handleCorrect id
  | .wrong id => m.handleWrong id
  | .reset => m.resetWeights
  | .restoreW sw => m.restoreWeights sw
  | .restoreP ids => m.restorePracticed ids
  | .restoreC c => m.restorePracticeCounter c

/-- Run a sequence of public operations. -/
def runOps (m : RadicalManager) (ops : List Op) : RadicalManager :=
  ops.foldl applyOp m

end RadicalManager

/-! ## Storage collaborator (src/unnamed/part_000: StorageManager) -/

namespace StorageManager

/-- The aggregate session counters of the default document
(part_000 lines 22 to 29). -/
structure Stats where
  totalAttempts : ℕ
  correctCount : ℕ
  wrongCount : ℕ
  currentCombo : ℕ
  maxCombo : ℕ
  practicedCount : ℕ
deriving DecidableEq

/-- The persisted state document (part_000 lines 19 to 39). The
embedding represents well-formed documents, whose top-level fields are
all present; JSON serialization is the identity on them. JS falsiness
of the individual field values (a null or empty-string timestamp, a
zero version) is modelled explicitly in mergeWithDefaults. -/
structure StateDoc where
  stats : Stats
  weights : List (String × RadicalManager.PartialItemState)
  practicedRadicals : List String
  lastPracticeTime : Option String
  version : ℕ
deriving DecidableEq

/-- getDefaultData (part_000 lines 19 to 39). -/
def getDefaultData : StateDoc :=
  { stats := ⟨0, 0, 0, 0, 0, 0⟩
    weights := []
    practicedRadicals := []
    lastPracticeTime := none
    version := 1 }

/-- mergeWithDefaults (part_000 lines 139 to 148) on a document with
all top-level fields present: the stats spread over the default stats
gives back the stored stats; object and array fields are truthy in JS
and are kept; the timestamp falls back to the default null when it is
null or the falsy empty string; the version falls back to the default 1
when it is the falsy 0. -/
def mergeWithDefaults (data : StateDoc) : StateDoc :=
  { stats := data.stats
    weights := data.weights
    practicedRadicals := data.practicedRadicals
    lastPracticeTime :=
      match data.lastPracticeTime with
      | some s => if s = "" then none else some s
      | none => none
    version := if data.version = 0 then 1 else data.version }

/-- save (part_000 lines 62 to 71): stamp lastPracticeTime with the
current time, then write the document to the store; the written
document is returned (JSON stringify is the identity on this model). -/
def save (now : String) (data : StateDoc) : StateDoc :=
  { data with lastPracticeTime := some now }

/-- load (part_000 lines 44 to 56): parse the stored document if one
exists and merge it with the defaults; otherwise the default document. -/
def load (stored : Option StateDoc) : StateDoc :=
  match stored with
  | some d => mergeWithDefaults d
  | none => getDefaultData

end StorageManager

/-! ## Theorems -/

open RadicalManager StorageManager

/-- C9: an id that has no record in radicalData makes handleCorrect and
handleWrong total no-ops: no error, and the whole engine state (item
records, seen set, counters, previous-item memory) is returned
unchanged. -/
theorem unknown_id_noop (m : RadicalManager) (id : String)
    (h : m.radicalData id = none) :
    m.handleCorrect id = m ∧ m.handleWrong id = m := by
  constructor <;> simp [RadicalManager.handleCorrect, RadicalManager.handleWrong, h]

/-- Witness for C9: the id ZZ is not in the catalog of a fresh engine,
and both recorders leave the engine unchanged on it. -/
theorem unknown_id_noop_witness :
    (RadicalManager.init RADICAL_LIST).radicalData "ZZ" = none ∧
    ((RadicalManager.init RADICAL_LIST).handleCorrect "ZZ" = RadicalManager.init RADICAL_LIST ∧
     (RadicalManager.init RADICAL_LIST).handleWrong "ZZ" = RadicalManager.init RADICAL_LIST) :=
  ⟨by decide, unknown_id_noop (RadicalManager.init RADICAL_LIST) "ZZ" (by decide)⟩

/-- C3: the correct-answer event (markPracticed then handleCorrect, the
sequence performed by the application on a correct answer) raises the
mastery of the answered item to min(5, mastery + 1), shrinks its weight
to max(0.3, weight * 0.7), stamps its lastPracticed with the current
global draw counter, increments its correctCount by 1, and puts the id
into the seen set. -/
theorem recordCorrect_updates (m : RadicalManager) (radicalId : String) (data : ItemState)
    (hdata : m.radicalData radicalId = some data) :
    ((m.recordCorrect radicalId).radicalData radicalId =
      some { data with
        mastery := min 5 (data.mastery + 1)
        weight := max (3/10) (data.weight * (7/10))
        lastPracticed := m.practiceCounter
        correctCount := data.correctCount + 1 }) ∧
    radicalId ∈ (m.recordCorrect radicalId).practicedRadicals := by
  constructor
  · simp [RadicalManager.recordCorrect, RadicalManager.handleCorrect,
      RadicalManager.markPracticed, hdata, RadicalManager.setItem]
  · simp [RadicalManager.recordCorrect, RadicalManager.handleCorrect,
      RadicalManager.markPracticed, hdata, List.mem_insert_iff]

/-- Witness for C3: the correct-answer event on Q_火 in a fresh engine. -/
theorem recordCorrect_updates_witness :
    (RadicalManager.init RADICAL_LIST).radicalData "Q_火" = some initItemState ∧
    ((((RadicalManager.init RADICAL_LIST).recordCorrect "Q_火").radicalData "Q_火" =
      some { initItemState with
        mastery := min 5 (initItemState.mastery + 1)
        weight := max (3/10) (initItemState.weight * (7/10))
        lastPracticed := (RadicalManager.init RADICAL_LIST).practiceCounter
        correctCount := initItemState.correctCount + 1 }) ∧
     "Q_火" ∈ ((RadicalManager.init RADICAL_LIST).recordCorrect "Q_火").practicedRadicals) :=
  ⟨by decide, recordCorrect_updates (RadicalManager.init RADICAL_LIST) "Q_火" initItemState (by decide)⟩

/-- Helper: the record produced by handleWrong on a known id. -/
theorem handleWrong_lookup (m : RadicalManager) (id : String) (data : ItemState)
    (h : m.radicalData id = some data) :
    (m.handleWrong id).radicalData id =
      some { data with
        mastery := 0
        weight := min 5 (data.weight + 3/2)
        lastPracticed := m.practiceCounter
        wrongCount := data.wrongCount + 1 } := by
  simp [RadicalManager.handleWrong, h, RadicalManager.setItem]

/-- Helper: handleWrong never touches the draw counter. -/
theorem handleWrong_counter (m : RadicalManager) (id : String) :
    (m.handleWrong id).practiceCounter = m.practiceCounter := by
  rcases h : m.radicalData id with _ | d <;> simp [RadicalManager.handleWrong, h]

/-- A state in which the weight of Q_火 has hit the 5.0 cap: three
wrong answers from a fresh engine take it 1, 2.5, 4, 5. -/
def w5Mgr : RadicalManager :=
  (((RadicalManager.init RADICAL_LIST).handleWrong "Q_火").handleWrong "Q_火").handleWrong "Q_火"

/-- C4 counterexample: in the reachable state w5Mgr the weight of Q_火
is 5, and a further handleWrong leaves it at 5, so the weight does not
strictly increase. -/
theorem handleWrong_weight_capped_cex :
    (w5Mgr.radicalData "Q_火").map ItemState.weight = some 5 ∧
    ((w5Mgr.handleWrong "Q_火").radicalData "Q_火").map ItemState.weight =
      (w5Mgr.radicalData "Q_火").map ItemState.weight := by
  have h0 : (RadicalManager.init RADICAL_LIST).radicalData "Q_火" = some initItemState := by decide
  have h1 : ((RadicalManager.init RADICAL_LIST).handleWrong "Q_火").radicalData "Q_火" =
      some ⟨5/2, 0, 0, 1, 0⟩ := by
    rw [handleWrong_lookup _ _ _ h0]
    norm_num [initItemState, min_def, RadicalManager.init]
  have h2 : (((RadicalManager.init RADICAL_LIST).handleWrong "Q_火").handleWrong
      "Q_火").radicalData "Q_火" = some ⟨4, 0, 0, 2, 0⟩ := by
    rw [handleWrong_lookup _ _ _ h1]
    norm_num [min_def, handleWrong_counter, RadicalManager.init]
  have h3 : w5Mgr.radicalData "Q_火" = some ⟨5, 0, 0, 3, 0⟩ := by
    rw [w5Mgr, handleWrong_lookup _ _ _ h2]
    norm_num [min_def, handleWrong_counter, RadicalManager.init]
  have h4 : (w5Mgr.handleWrong "Q_火").radicalData "Q_火" = some ⟨5, 0, 0, 4, 0⟩ := by
    rw [handleWrong_lookup _ _ _ h3]
    norm_num [min_def, handleWrong_counter, w5Mgr, RadicalManager.init]
  constructor
  · simp [h3]
  · simp [h3, h4]

/-- C4 (amended): handleWrong on a known id sets its mastery to exactly
0 and its weight to min(5, weight + 1.5); the weight strictly increases
whenever the prior weight is below the 5.0 cap, and never exceeds 5.0. -/
theorem handleWrong_updates (m : RadicalManager) (radicalId : String) (data : ItemState)
    (hdata : m.radicalData radicalId = some data) :
    ((m.handleWrong radicalId).radicalData radicalId =
      some { data with
        mastery := 0
        weight := min 5 (data.weight + 3/2)
        lastPracticed := m.practiceCounter
        wrongCount := data.wrongCount + 1 }) ∧
    (data.weight < 5 → data.weight < min 5 (data.weight + 3/2)) ∧
    min 5 (data.weight + 3/2) ≤ 5 := by
  refine ⟨?_, ?_, min_le_left _ _⟩
  · simp [RadicalManager.handleWrong, hdata, RadicalManager.setItem]
  · intro h
    rcases min_cases (5 : ℚ) (data.weight + 3/2) with ⟨heq, _⟩ | ⟨heq, _⟩ <;>
      rw [heq] <;> linarith

/-- Witness for C4 (amended): handleWrong on Q_火 in a fresh engine. -/
theorem handleWrong_updates_witness :
    (RadicalManager.init RADICAL_LIST).radicalData "Q_火" = some initItemState ∧
    ((((RadicalManager.init RADICAL_LIST).handleWrong "Q_火").radicalData "Q_火" =
      some { initItemState with
        mastery := 0
        weight := min 5 (initItemState.weight + 3/2)
        lastPracticed := (RadicalManager.init RADICAL_LIST).practiceCounter
        wrongCount := initItemState.wrongCount + 1 }) ∧
     (initItemState.weight < 5 → initItemState.weight < min 5 (initItemState.weight + 3/2)) ∧
     min 5 (initItemState.weight + 3/2) ≤ 5) :=
  ⟨by decide, handleWrong_updates (RadicalManager.init RADICAL_LIST) "Q_火" initItemState (by decide)⟩

/-- C8: restoring a legacy flat weight map with a single entry replaces
only the weight of that item, leaving its other fields and every other
item, the seen set, the counter and the previous-item memory untouched. -/
theorem restoreWeights_legacy_updates (m : RadicalManager) (id0 : String) (w0 : ℚ)
    (st : ItemState) (hdata : m.radicalData id0 = some st) :
    ((m.restoreWeights (.legacy [(id0, w0)])).radicalData id0 = some { st with weight := w0 }) ∧
    (∀ id, id ≠ id0 → (m.restoreWeights (.legacy [(id0, w0)])).radicalData id = m.radicalData id) ∧
    (m.restoreWeights (.legacy [(id0, w0)])).practicedRadicals = m.practicedRadicals ∧
    (m.restoreWeights (.legacy [(id0, w0)])).practiceCounter = m.practiceCounter ∧
    (m.restoreWeights (.legacy [(id0, w0)])).lastRadical = m.lastRadical ∧
    (m.restoreWeights (.legacy [(id0, w0)])).catalog = m.catalog := by
  refine ⟨?_, ?_, rfl, rfl, rfl, rfl⟩
  · simp [RadicalManager.restoreWeights, hdata, RadicalManager.setItem]
  · intro id hne
    simp [RadicalManager.restoreWeights, hdata, RadicalManager.setItem, hne]

/-- Witness for C8: importing the legacy map mapping Q_火 to 3 into a
fresh engine gives Q_火 weight 3 with every other field at its default. -/
theorem restoreWeights_legacy_updates_witness :
    (RadicalManager.init RADICAL_LIST).radicalData "Q_火" = some initItemState ∧
    ((((RadicalManager.init RADICAL_LIST).restoreWeights (.legacy [("Q_火", 3)])).radicalData "Q_火" =
      some { initItemState with weight := 3 }) ∧
     (∀ id, id ≠ "Q_火" →
       ((RadicalManager.init RADICAL_LIST).restoreWeights (.legacy [("Q_火", 3)])).radicalData id =
         (RadicalManager.init RADICAL_LIST).radicalData id) ∧
     ((RadicalManager.init RADICAL_LIST).restoreWeights (.legacy [("Q_火", 3)])).practicedRadicals =
       (RadicalManager.init RADICAL_LIST).practicedRadicals ∧
     ((RadicalManager.init RADICAL_LIST).restoreWeights (.legacy [("Q_火", 3)])).practiceCounter =
       (RadicalManager.init RADICAL_LIST).practiceCounter ∧
     ((RadicalManager.init RADICAL_LIST).restoreWeights (.legacy [("Q_火", 3)])).lastRadical =
       (RadicalManager.init RADICAL_LIST).lastRadical ∧
     ((RadicalManager.init RADICAL_LIST).restoreWeights (.legacy [("Q_火", 3)])).catalog =
       (RadicalManager.init RADICAL_LIST).catalog) :=
  ⟨by decide, restoreWeights_legacy_updates (RadicalManager.init RADICAL_LIST) "Q_火" 3
    initItemState (by decide)⟩

/-- The priority score as the claim states it, written from the spec
wording for comparison with calculatePriority: 100 if the item is not
in the seen set, plus (5 - mastery) * 10, plus weight * 5, plus — only
when lastSeenCounter > 0 and elapsed = globalCounter - lastSeenCounter
satisfies elapsed ≥ 2 ^ mastery — min(20, elapsed - 2 ^ mastery), plus
the random jitter. -/
def specPriorityScore (seen : Prop) [Decidable seen] (mastery : ℕ) (weight : ℚ)
    (lastSeenCounter globalCounter : ℕ) (jitter : ℚ) : ℚ :=
  (if ¬ seen then 100 else 0) + (5 - (mastery : ℚ)) * 10 + weight * 5 +
    (if 0 < lastSeenCounter ∧
        (2 : ℤ) ^ mastery ≤ (globalCounter : ℤ) - (lastSeenCounter : ℤ) then
      ((min 20 ((globalCounter : ℤ) - (lastSeenCounter : ℤ) - 2 ^ mastery) : ℤ) : ℚ)
    else 0) + jitter

/-- C1: for every item with a record and every engine state, the
priority computed on a draw is exactly the sum the spec describes,
where the seen set is practicedRadicals, lastSeenCounter is the stored
lastPracticed and the global counter is practiceCounter, for any jitter
in [0, 5). -/
theorem calculatePriority_matches_spec (m : RadicalManager) (radicalId : String)
    (data : ItemState) (jitter : ℚ)
    (hdata : m.radicalData radicalId = some data)
    (hj0 : 0 ≤ jitter) (hj5 : jitter < 5) :
    m.calculatePriority radicalId jitter =
      some (specPriorityScore (radicalId ∈ m.practicedRadicals) data.mastery data.weight
        data.lastPracticed m.practiceCounter jitter) := by
  simp only [RadicalManager.calculatePriority, specPriorityScore, hdata, Option.map_some',
    Option.some.injEq]
  by_cases hmem : radicalId ∈ m.practicedRadicals <;>
    by_cases hlp : 0 < data.lastPracticed <;>
      by_cases hint : (2 : ℤ) ^ data.mastery ≤
          (m.practiceCounter : ℤ) - (data.lastPracticed : ℤ) <;>
        simp [hmem, hlp, hint] <;> ring

/-- Witness for C1: the score of Q_火 in a fresh engine with jitter 2. -/
theorem calculatePriority_matches_spec_witness :
    ((RadicalManager.init RADICAL_LIST).radicalData "Q_火" = some initItemState ∧
     (0 : ℚ) ≤ 2 ∧ (2 : ℚ) < 5) ∧
    (RadicalManager.init RADICAL_LIST).calculatePriority "Q_火" 2 =
      some (specPriorityScore ("Q_火" ∈ (RadicalManager.init RADICAL_LIST).practicedRadicals)
        initItemState.mastery initItemState.weight initItemState.lastPracticed
        (RadicalManager.init RADICAL_LIST).practiceCounter 2) :=
  ⟨⟨by decide, by decide, by decide⟩,
    calculatePriority_matches_spec (RadicalManager.init RADICAL_LIST) "Q_火" initItemState 2
      (by decide) (by decide) (by decide)⟩

/-- Helper: the state returned by drawFrom differs from its input at
most in the previous-item memory. -/
theorem drawFrom_state (m1 : RadicalManager) (js : String → ℚ) (r01 : ℚ) :
    ((drawFrom m1 js r01).2.catalog = m1.catalog ∧
     (drawFrom m1 js r01).2.radicalData = m1.radicalData) ∧
    ((drawFrom m1 js r01).2.practicedRadicals = m1.practicedRadicals ∧
     (drawFrom m1 js r01).2.practiceCounter = m1.practiceCounter) := by
  rcases h : topCandidatesOf m1 js with _ | ⟨c0, rest⟩ <;>
    simp [RadicalManager.drawFrom, h]

/-- C10: a draw increments the global draw counter by exactly one and
touches nothing else except the previous-item memory: every item
record, the seen set and the catalog are unchanged, for every random
choice. -/
theorem getNextRadical_frame (m : RadicalManager) (js : String → ℚ) (r01 : ℚ) :
    (m.getNextRadical js r01).2.radicalData = m.radicalData ∧
    (m.getNextRadical js r01).2.practicedRadicals = m.practicedRadicals ∧
    (m.getNextRadical js r01).2.practiceCounter = m.practiceCounter + 1 ∧
    (m.getNextRadical js r01).2.catalog = m.catalog := by
  have h := drawFrom_state { m with practiceCounter := m.practiceCounter + 1 } js r01
  exact ⟨h.1.2, h.2.1, h.2.2, h.1.1⟩

/-- A concrete well-formed stored document with a timestamp. -/
def docX : StateDoc :=
  { getDefaultData with lastPracticeTime := some "2024-01-01T00:00:00.000Z" }

/-- C5 counterexample: save stamps lastPracticeTime with the time of the
save, so loading after saving does not return the document unchanged
when its stored timestamp differs from the save time. -/
theorem load_save_roundtrip_cex :
    StorageManager.load (some (StorageManager.save "2024-06-01T00:00:00.000Z" docX)) ≠ docX := by
  decide

/-- C5 (amended): for a well-formed document (version nonzero) and a
nonempty save timestamp, load after save returns the document with only
lastPracticeTime replaced by the save timestamp, and save after load
round-trips a stored well-formed document except for that same field. -/
theorem load_save_roundtrip (x d : StateDoc) (now now2 : String)
    (hv : x.version ≠ 0) (hnow : now ≠ "") (hdv : d.version ≠ 0) :
    StorageManager.load (some (StorageManager.save now x)) =
      { x with lastPracticeTime := some now } ∧
    StorageManager.save now2 (StorageManager.load (some d)) =
      { d with lastPracticeTime := some now2 } := by
  constructor
  · simp [StorageManager.load, StorageManager.save, StorageManager.mergeWithDefaults, hnow, hv]
  · simp [StorageManager.load, StorageManager.save, StorageManager.mergeWithDefaults, hdv]

/-- Witness for C5 (amended): the concrete document docX saved at a
concrete time and loaded back. -/
theorem load_save_roundtrip_witness :
    (docX.version ≠ 0 ∧ "2024-06-01T00:00:00.000Z" ≠ "") ∧
    (StorageManager.load (some (StorageManager.save "2024-06-01T00:00:00.000Z" docX)) =
      { docX with lastPracticeTime := some "2024-06-01T00:00:00.000Z" } ∧
     StorageManager.save "2024-07-01T00:00:00.000Z" (StorageManager.load (some docX)) =
      { docX with lastPracticeTime := some "2024-07-01T00:00:00.000Z" }) :=
  ⟨⟨by decide, by decide⟩,
    load_save_roundtrip docX docX "2024-06-01T00:00:00.000Z" "2024-07-01T00:00:00.000Z"
      (by decide) (by decide) (by decide)⟩

/-- The list of catalog item ids. -/
def catalogIds : List String := RADICAL_LIST.map CatalogItem.id

/-- Helper: handleCorrect never touches the seen set. -/
theorem handleCorrect_practiced (m : RadicalManager) (id : String) :
    (m.handleCorrect id).practicedRadicals = m.practicedRadicals := by
  rcases h : m.radicalData id with _ | d <;> simp [RadicalManager.handleCorrect, h]

/-- Helper: a correct-answer event inserts the answered id into the
seen set and changes the seen set in no other way. -/
theorem recordCorrect_practiced (m : RadicalManager) (id : String) :
    (m.recordCorrect id).practicedRadicals = m.practicedRadicals.insert id := by
  rw [RadicalManager.recordCorrect, handleCorrect_practiced]
  rfl

/-- Helper: the seen set can only grow along correct-answer events. -/
theorem practicedCount_le_foldl (ids : List String) (m : RadicalManager) :
    m.getPracticedCount ≤ (ids.foldl RadicalManager.recordCorrect m).getPracticedCount := by
  induction ids generalizing m with
  | nil => exact le_refl _
  | cons id rest ih =>
    simp only [List.foldl_cons]
    refine le_trans ?_ (ih (m.recordCorrect id))
    unfold RadicalManager.getPracticedCount
    rw [recordCorrect_practiced]
    by_cases h : id ∈ m.practicedRadicals
    · rw [List.insert_of_mem h]
    · rw [List.insert_of_not_mem h]
      exact Nat.le_succ _

/-- Helper: along correct-answer events on catalog ids the seen set
stays duplicate-free and inside the catalog ids. -/
theorem practiced_nodup_subset (ids : List String) (m : RadicalManager)
    (hnd : m.practicedRadicals.Nodup)
    (hsub : ∀ x ∈ m.practicedRadicals, x ∈ catalogIds)
    (hids : ∀ id ∈ ids, id ∈ catalogIds) :
    (ids.foldl RadicalManager.recordCorrect m).practicedRadicals.Nodup ∧
    ∀ x ∈ (ids.foldl RadicalManager.recordCorrect m).practicedRadicals, x ∈ catalogIds := by
  induction ids generalizing m with
  | nil => exact ⟨hnd, hsub⟩
  | cons id rest ih =>
    simp only [List.foldl_cons]
    refine ih (m.recordCorrect id) ?_ ?_ (fun i hi => hids i (List.mem_cons_of_mem _ hi))
    · rw [recordCorrect_practiced]
      exact hnd.insert
    · rw [recordCorrect_practiced]
      intro x hx
      rcases List.mem_insert_iff.1 hx with h | h
      · exact h ▸ hids id (List.mem_cons_self _ _)
      · exact hsub x h

/-- A sequence of correct-answer events from a fresh engine. -/
def runCorrectEvents (ids : List String) : RadicalManager :=
  ids.foldl RadicalManager.recordCorrect (RadicalManager.init RADICAL_LIST)

/-- C7: across every sequence of correct-answer events on catalog items
the size of the seen set is monotonically non-decreasing (it is at any
prefix at most its value at the end), and it never exceeds the catalog
size. -/
theorem practicedCount_monotone_le_total (ids pre suf : List String)
    (hids : ∀ id ∈ ids, id ∈ catalogIds) (hsplit : ids = pre ++ suf) :
    (runCorrectEvents pre).getPracticedCount ≤ (runCorrectEvents ids).getPracticedCount ∧
    (runCorrectEvents ids).getPracticedCount ≤ TOTAL_RADICALS := by
  constructor
  · rw [hsplit]
    unfold runCorrectEvents
    rw [List.foldl_append]
    exact practicedCount_le_foldl suf _
  · unfold runCorrectEvents RadicalManager.getPracticedCount
    have h := practiced_nodup_subset ids (RadicalManager.init RADICAL_LIST)
      (by simp [RadicalManager.init]) (by simp [RadicalManager.init]) hids
    have hsubF : (ids.foldl RadicalManager.recordCorrect
          (RadicalManager.init RADICAL_LIST)).practicedRadicals.toFinset ⊆
        catalogIds.toFinset :=
      fun x hx => List.mem_toFinset.2 (h.2 x (List.mem_toFinset.1 hx))
    rw [← List.toFinset_card_of_nodup h.1]
    calc (ids.foldl RadicalManager.recordCorrect
          (RadicalManager.init RADICAL_LIST)).practicedRadicals.toFinset.card
        ≤ catalogIds.toFinset.card := Finset.card_le_card hsubF
      _ ≤ catalogIds.length := List.toFinset_card_le _
      _ = TOTAL_RADICALS := by simp [catalogIds, TOTAL_RADICALS]

/-- Witness for C7: two correct-answer events on Q_火 and W_王. -/
theorem practicedCount_monotone_le_total_witness :
    ((∀ id ∈ ["Q_火", "W_王"], id ∈ catalogIds) ∧
     (["Q_火", "W_王"] : List String) = ["Q_火"] ++ ["W_王"]) ∧
    ((runCorrectEvents ["Q_火"]).getPracticedCount ≤
      (runCorrectEvents ["Q_火", "W_王"]).getPracticedCount ∧
     (runCorrectEvents ["Q_火", "W_王"]).getPracticedCount ≤ TOTAL_RADICALS) :=
  ⟨⟨by decide, rfl⟩,
    practicedCount_monotone_le_total ["Q_火", "W_王"] ["Q_火"] ["W_王"] (by decide) rfl⟩

/-- Every record stored in an id-to-record map has its weight inside
[0.3, 5.0]. -/
def DataInRange (f : String → Option ItemState) : Prop :=
  ∀ id st, f id = some st → 3/10 ≤ st.weight ∧ st.weight ≤ 5

/-- The claimed engine invariant: every stored weight lies in the range
[0.3, 5.0]. -/
def WeightInv (m : RadicalManager) : Prop := DataInRange m.radicalData

/-- An operation only supplies stored weights inside [0.3, 5.0]; this
restricts the restoreWeights argument and nothing else. -/
def OpWeightsInRange : Op → Prop
  | .restoreW (.legacy entries) => ∀ e ∈ entries, 3/10 ≤ e.2 ∧ e.2 ≤ 5
  | .restoreW (.full entries) => ∀ e ∈ entries, ∀ w, e.2.weight = some w → 3/10 ≤ w ∧ w ≤ 5
  | _ => True

/-- Helper: a point update with an in-range weight keeps the map in
range. -/
theorem dataInRange_setItem {f : String → Option ItemState} {id : String} {v : ItemState}
    (hf : DataInRange f) (hv : 3/10 ≤ v.weight ∧ v.weight ≤ 5) :
    DataInRange (setItem f id v) := by
  intro x st hx
  unfold RadicalManager.setItem at hx
  by_cases h : x = id
  · rw [if_pos h] at hx
    simp only [Option.some.injEq] at hx
    subst hx
    exact hv
  · rw [if_neg h] at hx
    exact hf x st hx

/-- Helper: the constructor loop keeps the map in range. -/
theorem dataInRange_initFold (catalog : List CatalogItem)
    (f : String → Option ItemState) (hf : DataInRange f) :
    DataInRange (catalog.foldl (fun g r => setItem g r.id initItemState) f) := by
  induction catalog generalizing f with
  | nil => exact hf
  | cons r rest ih =>
    simp only [List.foldl_cons]
    exact ih _ (dataInRange_setItem hf (by norm_num [initItemState]))

/-- Helper: the fresh id-to-record map is in range. -/
theorem dataInRange_initData (catalog : List CatalogItem) :
    DataInRange (initData catalog) :=
  dataInRange_initFold catalog _ (fun _ _ hx => Option.noConfusion hx)

/-- Helper: handleCorrect preserves the weight range. -/
theorem weightInv_handleCorrect {m : RadicalManager} (h : WeightInv m) (id : String) :
    WeightInv (m.handleCorrect id) := by
  rcases hd : m.radicalData id with _ | data
  · simpa [RadicalManager.handleCorrect, hd] using h
  · have hw := h id data hd
    simp only [RadicalManager.handleCorrect, hd]
    refine dataInRange_setItem h ⟨le_max_left _ _, max_le (by norm_num) ?_⟩
    have h7 : data.weight * (7/10) ≤ 5 * (7/10) :=
      mul_le_mul_of_nonneg_right hw.2 (by norm_num)
    linarith

/-- Helper: handleWrong preserves the weight range. -/
theorem weightInv_handleWrong {m : RadicalManager} (h : WeightInv m) (id : String) :
    WeightInv (m.handleWrong id) := by
  rcases hd : m.radicalData id with _ | data
  · simpa [RadicalManager.handleWrong, hd] using h
  · have hw := h id data hd
    simp only [RadicalManager.handleWrong, hd]
    refine dataInRange_setItem h ⟨le_min (by norm_num) (by linarith [hw.1]), min_le_left _ _⟩

/-- Helper: the legacy restore loop preserves the range when the stored
numbers are in range. -/
theorem dataInRange_restoreLegacy (entries : List (String × ℚ))
    (hentries : ∀ e ∈ entries, 3/10 ≤ e.2 ∧ e.2 ≤ 5)
    (f : String → Option ItemState) (hf : DataInRange f) :
    DataInRange (entries.foldl (fun g e =>
      match g e.1 with
      | some old => setItem g e.1 { old with weight := e.2 }
      | none => g) f) := by
  induction entries generalizing f with
  | nil => exact hf
  | cons e rest ih =>
    simp only [List.foldl_cons]
    refine ih (fun x hx => hentries x (List.mem_cons_of_mem _ hx)) _ ?_
    rcases hg : f e.1 with _ | old
    · simpa [hg] using hf
    · simp only [hg]
      exact dataInRange_setItem hf (hentries e (List.mem_cons_self _ _))

/-- Helper: the full-format restore loop preserves the range when every
stored weight field is in range. -/
theorem dataInRange_restoreFull (entries : List (String × PartialItemState))
    (hentries : ∀ e ∈ entries, ∀ w, e.2.weight = some w → 3/10 ≤ w ∧ w ≤ 5)
    (f : String → Option ItemState) (hf : DataInRange f) :
    DataInRange (entries.foldl (fun g e =>
      match g e.1 with
      | some old => setItem g e.1 (spreadOver old e.2)
      | none => g) f) := by
  induction entries generalizing f with
  | nil => exact hf
  | cons e rest ih =>
    simp only [List.foldl_cons]
    refine ih (fun x hx => hentries x (List.mem_cons_of_mem _ hx)) _ ?_
    rcases hg : f e.1 with _ | old
    · simpa [hg] using hf
    · simp only [hg]
      refine dataInRange_setItem hf ?_
      rcases hwf : e.2.weight with _ | w
      · simpa [RadicalManager.spreadOver, hwf] using hf e.1 old hg
      · simpa [RadicalManager.spreadOver, hwf] using
          hentries e (List.mem_cons_self _ _) w hwf

/-- Helper: every public operation whose restore argument is in range
preserves the weight-range invariant. -/
theorem weightInv_applyOp {m : RadicalManager} (h : WeightInv m) (op : Op)
    (hop : OpWeightsInRange op) : WeightInv (applyOp m op) := by
  cases op with
  | draw js r01 =>
    have hframe := drawFrom_state { m with practiceCounter := m.practiceCounter + 1 } js r01
    show DataInRange (m.getNextRadical js r01).2.radicalData
    rw [show (m.getNextRadical js r01).2.radicalData = m.radicalData from hframe.1.2]
    exact h
  | correct id => exact weightInv_handleCorrect h id
  | wrong id => exact weightInv_handleWrong h id
  | reset => exact dataInRange_initData m.catalog
  | restoreW sw =>
    cases sw with
    | legacy entries => exact dataInRange_restoreLegacy entries hop _ h
    | full entries => exact dataInRange_restoreFull entries hop _ h
  | restoreP ids => exact h
  | restoreC c => exact h

/-- Helper: the invariant holds along any run of in-range operations. -/
theorem weightInv_runOps_aux (ops : List Op) (m : RadicalManager) (h : WeightInv m)
    (hops : ∀ op ∈ ops, OpWeightsInRange op) : WeightInv (runOps m ops) := by
  induction ops generalizing m with
  | nil => exact h
  | cons op rest ih =>
    simp only [RadicalManager.runOps, List.foldl_cons]
    exact ih (applyOp m op) (weightInv_applyOp h op (hops op (List.mem_cons_self _ _)))
      (fun o ho => hops o (List.mem_cons_of_mem _ ho))

/-- C6 counterexample: restoreWeights injects a stored weight of 100,
so the state reached from initialization by that single public
operation violates the claimed range [0.3, 5.0]. -/
theorem weightInv_violated_cex :
    ¬ WeightInv (runOps (RadicalManager.init RADICAL_LIST)
      [Op.restoreW (SavedWeights.legacy [("Q_火", 100)])]) := by
  intro h
  have h2 := h "Q_火" ⟨100, 0, 0, 0, 0⟩ (by decide)
  exact absurd h2.2 (by norm_num)

/-- C6 (amended): along every sequence of public operations from
initialization in which each restoreWeights argument only carries
weights inside [0.3, 5.0], every stored weight stays inside
[0.3, 5.0]; the unrestricted claim fails because restoreWeights accepts
arbitrary stored numbers. -/
theorem weightInv_of_inRange_ops (ops : List Op)
    (hops : ∀ op ∈ ops, OpWeightsInRange op) :
    WeightInv (runOps (RadicalManager.init RADICAL_LIST) ops) :=
  weightInv_runOps_aux ops _ (dataInRange_initData RADICAL_LIST) hops

/-- Witness for C6 (amended): a run consisting of one in-range legacy
restore. -/
theorem weightInv_of_inRange_ops_witness :
    (∀ op ∈ [Op.restoreW (SavedWeights.legacy [("Q_火", 2)])], OpWeightsInRange op) ∧
    WeightInv (runOps (RadicalManager.init RADICAL_LIST)
      [Op.restoreW (SavedWeights.legacy [("Q_火", 2)])]) :=
  have hp : ∀ op ∈ [Op.restoreW (SavedWeights.legacy [("Q_火", 2)])], OpWeightsInRange op := by
    intro op hop
    simp only [List.mem_singleton] at hop
    subst hop
    intro e he
    simp only [List.mem_singleton] at he
    subst he
    norm_num
  ⟨hp, weightInv_of_inRange_ops [Op.restoreW (SavedWeights.legacy [("Q_火", 2)])] hp⟩

/-- The first item of the Q key. -/
def itemA : CatalogItem := ⟨"火", "Q", "Q_火"⟩

/-- The second item of the Q key. -/
def itemB : CatalogItem := ⟨"龶", "Q", "Q_龶"⟩

/-- A two-item catalog: the draw claims quantify over engines whose
catalog has more than one item. -/
def pairCatalog : List CatalogItem := [itemA, itemB]

/-- A two-item engine in which both items are already seen. -/
def pairMgr : RadicalManager :=
  { RadicalManager.init pairCatalog with practicedRadicals := ["Q_火", "Q_龶"] }

/-- Jitters ranking Q_火 first and Q_龶 second on every draw. -/
def jsPair : String → ℚ := fun id => if id = "Q_火" then 4 else 0

/-- The engine state after the first concrete draw below. -/
def pairMgr2 : RadicalManager :=
  { pairMgr with practiceCounter := 1, lastRadical := some itemB }

/-- The two-item engine with Q_火 as the previously drawn item. -/
def pairMgrA : RadicalManager := { pairMgr with lastRadical := some itemA }

/-- Helper: a draw body cannot return the id of the previously drawn
item when the second-ranked candidate has a different id and at least
two candidates exist. -/
theorem drawFrom_no_repeat (m1 : RadicalManager) (js : String → ℚ) (r01 : ℚ)
    (h2 : 2 ≤ (topCandidatesOf m1 js).length)
    (hsec : ∀ c, (topCandidatesOf m1 js)[1]? = some c →
      some c.1.id ≠ m1.lastRadical.map CatalogItem.id) :
    ((drawFrom m1 js r01).1).map CatalogItem.id ≠ m1.lastRadical.map CatalogItem.id := by
  unfold RadicalManager.drawFrom
  rcases htc : topCandidatesOf m1 js with _ | ⟨c0, rest⟩
  · rw [htc] at h2
    simp at h2
  · rcases rest with _ | ⟨c1, rest2⟩
    · rw [htc] at h2
      simp at h2
    · have hc1 : some c1.1.id ≠ m1.lastRadical.map CatalogItem.id := by
        refine hsec c1 ?_
        rw [htc]
        simp
      dsimp only
      split_ifs with hcond
      · simpa using hc1
      · have hB : 1 < (c0 :: c1 :: rest2).length := by
          simp [List.length_cons]
        have hA : ¬ some (pickWeighted
            (r01 * (((c0 :: c1 :: rest2).map fun c => c.2).sum)) (c0 :: c1 :: rest2) c0.1).id =
            m1.lastRadical.map CatalogItem.id := fun hA => hcond ⟨hA, hB⟩
        simpa using hA

/-- C2 counterexample: in a two-item engine two consecutive draws with
these concrete random choices both return Q_龶. On the second draw the
previous item Q_龶 is the second-ranked candidate, the weighted
selection picks it, and the anti-repeat rule substitutes the
second-ranked candidate — Q_龶 itself — so the repeat survives. -/
theorem consecutive_repeat_cex :
    1 < pairMgr.catalog.length ∧
    (pairMgr.getNextRadical jsPair (3/5)).1 = some itemB ∧
    ((pairMgr.getNextRadical jsPair (3/5)).2.getNextRadical jsPair (3/5)).1 = some itemB := by
  have hQ : (("Q_龶" : String) = "Q_火") = False := by simp
  have hdraw1 : pairMgr.getNextRadical jsPair (3/5) = (some itemB, pairMgr2) := by
    have htop : topCandidatesOf
        { pairMgr with practiceCounter := pairMgr.practiceCounter + 1 } jsPair
        = [(itemA, 59), (itemB, 55)] := by
      norm_num [RadicalManager.topCandidatesOf, RadicalManager.priorityListOf,
        RadicalManager.calculatePriority, pairMgr, pairCatalog, itemA, itemB, jsPair,
        RadicalManager.init, RadicalManager.initData, RadicalManager.setItem, initItemState,
        List.mergeSort, List.merge, hQ]
    unfold RadicalManager.getNextRadical RadicalManager.drawFrom
    rw [htop]
    norm_num [RadicalManager.pickWeighted, itemA, itemB, pairMgr, pairMgr2, pairCatalog,
      RadicalManager.init, RadicalManager.initData, initItemState]
  have hdraw2 : (pairMgr2.getNextRadical jsPair (3/5)).1 = some itemB := by
    have htop2 : topCandidatesOf
        { pairMgr2 with practiceCounter := pairMgr2.practiceCounter + 1 } jsPair
        = [(itemA, 59), (itemB, 55)] := by
      norm_num [RadicalManager.topCandidatesOf, RadicalManager.priorityListOf,
        RadicalManager.calculatePriority, pairMgr2, pairMgr, pairCatalog, itemA, itemB, jsPair,
        RadicalManager.init, RadicalManager.initData, RadicalManager.setItem, initItemState,
        List.mergeSort, List.merge, hQ]
    unfold RadicalManager.getNextRadical RadicalManager.drawFrom
    rw [htop2]
    norm_num [RadicalManager.pickWeighted, itemA, itemB, pairMgr2, pairMgr, pairCatalog,
      RadicalManager.init, RadicalManager.initData, initItemState]
  refine ⟨by decide, ?_, ?_⟩
  · rw [hdraw1]
  · rw [hdraw1]
    exact hdraw2

/-- C2 (amended): a draw never returns the id of the previously drawn
item provided the second-ranked candidate of that draw has a different
id and at least two candidates exist; when the previous item is itself
the second-ranked candidate, the anti-repeat substitution can return it
again, so the unrestricted claim fails. -/
theorem getNextRadical_no_immediate_repeat (m : RadicalManager) (js : String → ℚ) (r01 : ℚ)
    (h2 : 2 ≤ (topCandidatesOf { m with practiceCounter := m.practiceCounter + 1 } js).length)
    (hsec : ∀ c,
      (topCandidatesOf { m with practiceCounter := m.practiceCounter + 1 } js)[1]? = some c →
      some c.1.id ≠ m.lastRadical.map CatalogItem.id) :
    ((m.getNextRadical js r01).1).map CatalogItem.id ≠ m.lastRadical.map CatalogItem.id :=
  drawFrom_no_repeat { m with practiceCounter := m.practiceCounter + 1 } js r01 h2 hsec

/-- Witness for C2 (amended): with Q_火 as previous item the second
candidate is Q_龶, so the draw cannot repeat Q_火. -/
theorem getNextRadical_no_immediate_repeat_witness :
    ((2 ≤ (topCandidatesOf
        { pairMgrA with practiceCounter := pairMgrA.practiceCounter + 1 } jsPair).length) ∧
     (∀ c, (topCandidatesOf
        { pairMgrA with practiceCounter := pairMgrA.practiceCounter + 1 } jsPair)[1]? = some c →
       some c.1.id ≠ pairMgrA.lastRadical.map CatalogItem.id)) ∧
    ((pairMgrA.getNextRadical jsPair (3/5)).1).map CatalogItem.id ≠
      pairMgrA.lastRadical.map CatalogItem.id :=
  have htopA : topCandidatesOf
      { pairMgrA with practiceCounter := pairMgrA.practiceCounter + 1 } jsPair
      = [(itemA, 59), (itemB, 55)] := by
    have hQ : (("Q_龶" : String) = "Q_火") = False := by simp
    norm_num [RadicalManager.topCandidatesOf, RadicalManager.priorityListOf,
      RadicalManager.calculatePriority, pairMgrA, pairMgr, pairCatalog, itemA, itemB, jsPair,
      RadicalManager.init, RadicalManager.initData, RadicalManager.setItem, initItemState,
      List.mergeSort, List.merge, hQ]
  have h2w : 2 ≤ (topCandidatesOf
      { pairMgrA with practiceCounter := pairMgrA.practiceCounter + 1 } jsPair).length := by
    rw [htopA]
    simp
  have hsecw : ∀ c, (topCandidatesOf
      { pairMgrA with practiceCounter := pairMgrA.practiceCounter + 1 } jsPair)[1]? = some c →
      some c.1.id ≠ pairMgrA.lastRadical.map CatalogItem.id := by
    intro c hc
    rw [htopA] at hc
    simp only [List.getElem?_cons_succ, List.getElem?_cons_zero, Option.some.injEq] at hc
    subst hc
    simp [itemB, itemA, pairMgrA, pairMgr, RadicalManager.init]
  ⟨⟨h2w, hsecw⟩, getNextRadical_no_immediate_repeat pairMgrA jsPair (3/5) h2w hsecw⟩

end ShouyouPlus
